import Mathlib

/-!
Verification of the imd-utils command-line tools (imdchk.c, imdcmp.c, imdu.c,
imda.c) against their natural-language specification.

The repository's CLI sources are embedded shallowly: pure decision logic is
translated into Lean functions over `Nat`, lists and explicit state.  The
libimd library itself is not part of the source tree; where a definition can
only come from that library its doc comment starts with `Modelled from the
spec:` and follows the specification text (sector-flag numbering, the
interleave analyzer, the sector payload codec, the per-track sector ceiling).
-/

namespace Imd

/-! ### Sector flag values (IMD SDR codes)

Modelled from the spec: the `sector_flags` byte is one of the nine legal
values 0..8, numbered unavailable / normal / compressed / normal+dam /
compressed+dam / normal+err / compressed+err / normal+dam+err /
compressed+dam+err.  The predicates below mirror the libimd
`IMD_SDR_HAS_DATA` / `IMD_SDR_IS_COMPRESSED` / `IMD_SDR_HAS_DAM` /
`IMD_SDR_HAS_ERR` macros used throughout the CLI sources. -/

def IMD_SDR_UNAVAILABLE : ℕ := 0

def IMD_SDR_NORMAL : ℕ := 1

def IMD_SDR_COMPRESSED : ℕ := 2

def IMD_SDR_NORMAL_DAM : ℕ := 3

def IMD_SDR_COMPRESSED_DAM : ℕ := 4

def IMD_SDR_NORMAL_ERR : ℕ := 5

def IMD_SDR_COMPRESSED_ERR : ℕ := 6

def IMD_SDR_DELETED_ERR : ℕ := 7

def IMD_SDR_COMPRESSED_DEL_ERR : ℕ := 8

/-- Modelled from the spec: a flag byte carries sector data iff it is one of
the eight data-bearing codes 1..8 (code 0 is "unavailable"). -/
def sdrHasData (f : ℕ) : Bool := 1 ≤ f && f ≤ 8

/-- Modelled from the spec: the compressed codes are 2, 4, 6, 8. -/
def sdrIsCompressed (f : ℕ) : Bool := f == 2 || f == 4 || f == 6 || f == 8

/-- Modelled from the spec: the deleted-address-mark codes are 3, 4, 7, 8. -/
def sdrHasDam (f : ℕ) : Bool := f == 3 || f == 4 || f == 7 || f == 8

/-- Modelled from the spec: the error-marker codes are 5, 6, 7, 8. -/
def sdrHasErr (f : ℕ) : Bool := f == 5 || f == 6 || f == 7 || f == 8

/-! ### Mode/rate tables (imdu.c lines 113-116, imda.c lines 246-250) -/

/-- `MODE_TO_RATE_CODE` from imdu.c line 114: rate code per IMD mode. -/
def MODE_TO_RATE_CODE : List ℕ := [5, 3, 2, 5, 3, 2]

/-- `MODE_RATES` from imdu.c line 116: data rate in kbps per IMD mode. -/
def MODE_RATES : List ℕ := [500, 300, 250, 500, 300, 250]

/-- imda.c lines 246-250: the `modes_used` bit contributed by a track whose
mode byte is `m` — `switch (mode % 3)`: case 0 sets bit 1 (500 kbps),
case 1 sets bit 2 (300 kbps), case 2 sets bit 4 (250 kbps). -/
def imdaModeBit (m : ℕ) : ℕ :=
  match m % 3 with
  | 0 => 1
  | 1 => 2
  | _ => 4

/-- imda.c lines 269-271: which rate each `modes_used` bit denotes when the
summary is printed (bit 1 ↦ 500 kbps, bit 2 ↦ 300 kbps, bit 4 ↦ 250 kbps). -/
def imdaBitOfRate (rate : ℕ) : ℕ :=
  if rate = 500 then 1 else if rate = 300 then 2 else 4

/-- imdu.c line 818: a track is labelled MFM when `mode > 2`, FM otherwise. -/
def isMFM (m : ℕ) : Bool := 2 < m

/-- The spec's reading of the bit-rate class: class `m % 3` with class 0
meaning 500 kbps, class 1 meaning 300 kbps and class 2 meaning 250 kbps. -/
def specRateOfClass (c : ℕ) : ℕ :=
  if c = 0 then 500 else if c = 1 then 300 else 250

/-! ### imdchk final exit code (imdchk.c lines 274-312)

In imdchk.c `main`, after `imdchk_check_file` returns, the final exit code is
computed by lines 286-293.  The conditional on
`checks_performed_mask & check_failures_mask & error_mask` is commented out
in the source, so `final_exit_code = 1` executes unconditionally; an earlier
`return -1` covers the case where `imdchk_check_file` failed.  The function
below is that exit-code computation exactly as compiled. -/

def imdchkFinalExitCode (checkStatus : Int) (checkFailuresMask errorMask : ℕ) :
    Int :=
  if checkStatus ≠ 0 then -1
  else 1

/-! ### imdu -T mode translation (imdu.c lines 440-478) -/

/-- imdu.c line 456 / 460: whether a `MODE_TO_RATE_CODE` entry matches a
requested kbps rate (code 2 ↦ 250, code 3 ↦ 300, code 5 ↦ 500). -/
def rateCodeMatches (code rate : ℕ) : Bool :=
  (code == 2 && rate == 250) || (code == 3 && rate == 300) ||
    (code == 5 && rate == 500)

/-- imdu.c line 461: both mode indices must lie on the same side of the
FM/MFM boundary: `(i < 3 && j < 3) || (i >= 3 && j >= 3)`. -/
def sameFmMfmSide (i j : ℕ) : Bool := (i < 3 && j < 3) || (3 ≤ i && 3 ≤ j)

/-- imdu.c lines 454-472: processing of one `-T<rate_from>=<rate_to>`
request against the 6-entry translation table `tmode`.  The outer loop finds
the first mode index whose rate code matches `rateFrom` and breaks; the
inner loop finds the first mode index matching `rateTo` on the same FM/MFM
side and, if found, stores it into `tmode[mode_from]`; otherwise only a
warning is printed and the table is left unchanged. -/
def imduApplyModeTranslation (rateFrom rateTo : ℕ) (tmode : List ℕ) :
    List ℕ :=
  match (List.range 6).find?
      (fun i => rateCodeMatches (MODE_TO_RATE_CODE.getD i 0) rateFrom) with
  | none => tmode
  | some i =>
    match (List.range 6).find?
        (fun j => rateCodeMatches (MODE_TO_RATE_CODE.getD j 0) rateTo &&
          sameFmMfmSide i j) with
    | none => tmode
    | some j => tmode.set i j

/-! ### imdu sector-flag rewrite on output (imdu.c lines 949-988)

imdu.c's main loop computes, for each written sector, the flag byte the
output carries ("Determine final flags based on write options (simulate
write logic)").  The computation depends on the write options'
`compression_mode`, `force_non_deleted` and `force_non_bad` fields and on
whether the sector's bytes are uniform. -/

/-- The `IMD_COMPRESSION_*` compression policy selected by imdu's options
(`-C` ↦ force-compress, `-E` ↦ force-decompress, default as-read). -/
inductive CompressionMode where
  | asRead
  | forceCompress
  | forceDecompress
deriving DecidableEq

/-- The fields of libimd's `ImdWriteOpts` that imdu.c's per-sector flag
rewrite (lines 952-988) consumes. -/
structure ImdWriteOpts where
  compressionMode : CompressionMode
  forceNonBad : Bool
  forceNonDeleted : Bool

/-- Modelled from the spec: `imd_is_uniform` holds of a sector buffer whose
bytes are all identical (imdu.c only calls it with `sector_size > 0`). -/
def imdIsUniform (data : List ℕ) : Bool :=
  match data with
  | [] => false
  | b :: rest => rest.all (· == b)

/-- imdu.c lines 968-973: the `target_base_type` switch — force-compress
compresses exactly the uniform sectors, force-decompress never compresses,
and as-read compresses only sectors that were read compressed (and are
still uniform). -/
def imduTargetBaseType (cm : CompressionMode) (origFlag : ℕ)
    (isUniform : Bool) : ℕ :=
  match cm with
  | .forceCompress =>
    if isUniform then IMD_SDR_COMPRESSED else IMD_SDR_NORMAL
  | .forceDecompress => IMD_SDR_NORMAL
  | .asRead =>
    if sdrIsCompressed origFlag then
      (if isUniform then IMD_SDR_COMPRESSED else IMD_SDR_NORMAL)
    else IMD_SDR_NORMAL

/-- imdu.c lines 976-987: reassemble the flag byte from the base type and
the (possibly force-cleared) DAM and error markers. -/
def imduComposeFlag (baseType : ℕ) (hasDam hasErr : Bool) : ℕ :=
  if baseType = IMD_SDR_NORMAL then
    if hasDam && hasErr then IMD_SDR_DELETED_ERR
    else if hasErr then IMD_SDR_NORMAL_ERR
    else if hasDam then IMD_SDR_NORMAL_DAM
    else IMD_SDR_NORMAL
  else
    if hasDam && hasErr then IMD_SDR_COMPRESSED_DEL_ERR
    else if hasErr then IMD_SDR_COMPRESSED_ERR
    else if hasDam then IMD_SDR_COMPRESSED_DAM
    else IMD_SDR_COMPRESSED

/-- imdu.c lines 952-988: the final flag byte of one written sector, from
its original flag and whether its data bytes are uniform.  A sector without
data stays `IMD_SDR_UNAVAILABLE`; otherwise the base type comes from the
compression policy and the DAM/error markers survive unless force-cleared
(`target_has_dam = HAS_DAM && !force_non_deleted`,
`target_has_err = HAS_ERR && !force_non_bad`). -/
def imduFinalSflag (w : ImdWriteOpts) (origFlag : ℕ) (isUniform : Bool) :
    ℕ :=
  if sdrHasData origFlag then
    imduComposeFlag (imduTargetBaseType w.compressionMode origFlag isUniform)
      (sdrHasDam origFlag && !w.forceNonDeleted)
      (sdrHasErr origFlag && !w.forceNonBad)
  else IMD_SDR_UNAVAILABLE

/-! ### Sector payload codec

Modelled from the spec: `encode_sector` emits the 1-byte compressed form
exactly when the policy allows compression and all bytes are identical
(as-read additionally requires the original sector to have been flagged
compressed); `decode_sector` expands a compressed payload to `sector_size`
copies of its fill byte, passes a normal payload through verbatim, fills an
unavailable sector with the fill byte, and fails on an inconsistent payload
length. -/

/-- Modelled from the spec: sector encoding.  Returns `(compressed?,
payload)`. -/
def encodeSector (data : List ℕ) (origCompressed : Bool)
    (policy : CompressionMode) : Bool × List ℕ :=
  let compress :=
    match policy with
    | .forceCompress => imdIsUniform data
    | .forceDecompress => false
    | .asRead => origCompressed && imdIsUniform data
  if compress then (true, [data.headD 0]) else (false, data)

/-- Modelled from the spec: sector decoding from a flag byte and the stored
payload. -/
def decodeSector (flag : ℕ) (payload : List ℕ) (sectorSize fill : ℕ) :
    Option (List ℕ) :=
  if sdrHasData flag then
    if sdrIsCompressed flag then
      match payload with
      | [v] => some (List.replicate sectorSize v)
      | _ => none
    else if payload.length = sectorSize then some payload else none
  else some (List.replicate sectorSize fill)

/-! ### Interleave analyzer

Modelled from the spec: `generate_interleaved_map` places consecutive IDs
`base_id, base_id+1, ...` starting at the first physical slot, advancing
`factor` slots (mod `sector_count`) after each placement and skipping slots
already filled; `calculate_best_interleave` tries factors 1 through
`sector_count - 1` and returns the smallest factor whose generated sequence
(IDs starting from 1) reproduces the given sector map, or none.  The
library implementation (libimd) is not in the source tree; imdcmp.c and
imdchk.c only call it. -/

/-- Modelled from the spec: the first unfilled slot at or cyclically after
`pos` (the generator "skipping slots already filled").  `fuel` bounds the
scan by the slot count. -/
def findFreeSlot (slots : List (Option ℕ)) (pos : ℕ) (fuel : ℕ) : ℕ :=
  match fuel with
  | 0 => pos % slots.length
  | fuel + 1 =>
    if (slots.getD (pos % slots.length) none).isNone then pos % slots.length
    else findFreeSlot slots (pos + 1) fuel

/-- Modelled from the spec: place `k` consecutive IDs starting at `id`,
stepping `factor` slots per placement. -/
def genMapGo (factor : ℕ) (slots : List (Option ℕ)) (pos id : ℕ) :
    ℕ → List (Option ℕ)
  | 0 => slots
  | k + 1 =>
    let p := findFreeSlot slots pos slots.length
    genMapGo factor (slots.set p (some id)) (p + factor) (id + 1) k

/-- Modelled from the spec: `generate_interleaved_map(sector_count, factor,
base_id)`. -/
def generateInterleavedMap (sectorCount factor baseId : ℕ) : List ℕ :=
  (genMapGo factor (List.replicate sectorCount none) 0 baseId
      sectorCount).map (fun o => o.getD 0)

/-- Modelled from the spec: `calculate_best_interleave(sector_map)` — the
smallest factor in 1..sector_count-1 whose generated map (IDs from 1)
equals the given map. -/
def calculateBestInterleave (smap : List ℕ) : Option ℕ :=
  (List.range' 1 (smap.length - 1)).find?
    (fun f => generateInterleavedMap smap.length f 1 == smap)

/-! ### imdcmp track comparison (imdcmp.c lines 33-56, 267-510) -/

def C_DIFF_COMMENT : ℕ := 0x002

def C_DIFF_TRACK_HDR : ℕ := 0x004

def C_DIFF_TRACK_MAP : ℕ := 0x008

def C_DIFF_TRACK_DATA : ℕ := 0x010

def C_DIFF_TRACK_FLAG : ℕ := 0x020

def C_DIFF_COMPRESS : ℕ := 0x040

def C_DIFF_INTERLEAVE : ℕ := 0x080

def C_DIFF_FILE_STRUCT : ℕ := 0x100

/-- imdcmp.c lines 55-56: the hard differences that always force exit
code 1. -/
def C_MASK_HARD_DIFF : ℕ :=
  C_DIFF_COMMENT ||| C_DIFF_TRACK_HDR ||| C_DIFF_TRACK_MAP |||
    C_DIFF_TRACK_DATA ||| C_DIFF_TRACK_FLAG ||| C_DIFF_FILE_STRUCT

def EXIT_MATCH : ℕ := 0

def EXIT_DIFF : ℕ := 1

def EXIT_DIFF_COMPRESS : ℕ := 2

def EXIT_DIFF_INTERLEAVE : ℕ := 3

def EXIT_FILE_ERROR : ℕ := 5

/-- The imdcmp option flags consumed by the comparison logic. -/
structure CmpOptions where
  ignoreCompression : Bool
  strictCompression : Bool
  warnError : Bool

/-- The fields of libimd's `ImdTrackInfo` that imdcmp.c's track comparison
reads: header bytes, the three maps, per-sector flags, and the decoded
per-sector data. -/
structure CmpTrack where
  mode : ℕ
  cyl : ℕ
  head : ℕ
  numSectors : ℕ
  sectorSizeCode : ℕ
  hflag : ℕ
  smap : List ℕ
  cmap : List ℕ
  hmap : List ℕ
  sflag : List ℕ
  data : List (List ℕ)

/-- imdcmp.c lines 404-443: the difference bits contributed by sector slot
`i` of two tracks whose headers matched — data content compare, then the
flag compare distinguishing a compression-only difference (which `-C`
suppresses) from any other flag difference. -/
def sectorPairDiffs (opts : CmpOptions) (t1 t2 : CmpTrack) (i : ℕ) : ℕ :=
  let flag1 := t1.sflag.getD i 0
  let flag2 := t2.sflag.getD i 0
  let dataDiff :=
    if t1.data.getD i [] ≠ t2.data.getD i [] then C_DIFF_TRACK_DATA else 0
  let flagDiff :=
    if flag1 ≠ flag2 then
      let compressOnly :=
        (sdrIsCompressed flag1 != sdrIsCompressed flag2) &&
          (sdrHasData flag1 == sdrHasData flag2) &&
          (sdrHasErr flag1 == sdrHasErr flag2) &&
          (sdrHasDam flag1 == sdrHasDam flag2)
      if compressOnly && !opts.ignoreCompression then C_DIFF_COMPRESS
      else if !compressOnly then C_DIFF_TRACK_FLAG
      else 0
    else 0
  dataDiff ||| flagDiff

/-- imdcmp.c lines 360-444: the difference bits contributed by one pair of
tracks — header mismatch alone when the six header fields differ, otherwise
the optional-map, sector-map, interleave and per-sector comparisons. -/
def imdcmpTrackDiffs (opts : CmpOptions) (t1 t2 : CmpTrack) : ℕ :=
  if t1.mode ≠ t2.mode ∨ t1.cyl ≠ t2.cyl ∨ t1.head ≠ t2.head ∨
      t1.numSectors ≠ t2.numSectors ∨
      t1.sectorSizeCode ≠ t2.sectorSizeCode ∨ t1.hflag ≠ t2.hflag then
    C_DIFF_TRACK_HDR
  else
    let n := t1.numSectors
    let cmapDiff :=
      if t1.hflag.testBit 7 ∧ t1.cmap.take n ≠ t2.cmap.take n then
        C_DIFF_TRACK_MAP
      else 0
    let hmapDiff :=
      if t1.hflag.testBit 6 ∧ t1.hmap.take n ≠ t2.hmap.take n then
        C_DIFF_TRACK_MAP
      else 0
    let smapDiff :=
      if t1.smap.take n ≠ t2.smap.take n then C_DIFF_TRACK_MAP else 0
    let ilDiff :=
      if calculateBestInterleave (t1.smap.take n) ≠
          calculateBestInterleave (t2.smap.take n) then
        C_DIFF_INTERLEAVE
      else 0
    let secDiffs :=
      (List.range n).foldl (fun acc i => acc ||| sectorPairDiffs opts t1 t2 i)
        0
    cmapDiff ||| hmapDiff ||| smapDiff ||| ilDiff ||| secDiffs

/-- imdcmp.c lines 335-454: the track comparison loop over the two input
streams, given as the remaining track lists (a clean `imd_load_track`
end-of-file corresponds to an empty list).  When one stream ends while the
other still holds a track the loop records `C_DIFF_FILE_STRUCT` and breaks;
otherwise it accumulates the pair's difference bits and breaks on any hard
difference. -/
def imdcmpLoop (opts : CmpOptions) :
    List CmpTrack → List CmpTrack → ℕ → ℕ
  | [], [], d => d
  | _ :: _, [], d => d ||| C_DIFF_FILE_STRUCT
  | [], _ :: _, d => d ||| C_DIFF_FILE_STRUCT
  | t1 :: ts1, t2 :: ts2, d =>
    let d' := d ||| imdcmpTrackDiffs opts t1 t2
    if d' &&& C_MASK_HARD_DIFF ≠ 0 then d'
    else imdcmpLoop opts ts1 ts2 d'

/-- imdcmp.c lines 466-507: the final exit code from the accumulated
difference flags when no file-access error occurred. -/
def imdcmpExitCode (opts : CmpOptions) (d : ℕ) : ℕ :=
  if d &&& C_MASK_HARD_DIFF ≠ 0 then EXIT_DIFF
  else if d &&& C_DIFF_COMPRESS ≠ 0 ∧ opts.strictCompression then
    EXIT_DIFF_COMPRESS
  else if (d &&& C_DIFF_COMPRESS ≠ 0 ∨ d &&& C_DIFF_INTERLEAVE ≠ 0) ∧
      opts.warnError then
    if d &&& C_DIFF_COMPRESS ≠ 0 ∧ d &&& C_DIFF_INTERLEAVE ≠ 0 then
      EXIT_DIFF
    else if d &&& C_DIFF_COMPRESS ≠ 0 then EXIT_DIFF_COMPRESS
    else EXIT_DIFF_INTERLEAVE
  else EXIT_MATCH

/-! ### imdu two-stream merge (imdu.c lines 775-807) -/

/-- A loaded track as seen by imdu's merge selection: its cylinder/head
coordinates plus the rest of the record (irrelevant to the selection,
carried along to distinguish primary and merge tracks). -/
structure MergeTrack where
  cyl : ℕ
  head : ℕ
  body : ℕ
deriving DecidableEq

/-- imdu.c lines 791 and 794: strict (cylinder, head) ordering used to pick
which loaded track to process next. -/
def mergeBefore (a b : MergeTrack) : Bool :=
  a.cyl < b.cyl || (a.cyl == b.cyl && a.head < b.head)

/-- imdu.c lines 775-807 (without exclusions): the sequence of tracks
processed and written by the merge loop, driven by the two input streams'
remaining track lists.  While both streams hold a track the
lower-(cylinder, head) one is processed; on an exact (cylinder, head) match
the primary file's track is processed and the merge file's track is freed
unprocessed; once one stream is exhausted the other drains. -/
def imduMergeOrder : List MergeTrack → List MergeTrack → List MergeTrack
  | [], [] => []
  | p :: ps, [] => p :: imduMergeOrder ps []
  | [], m :: ms => m :: imduMergeOrder [] ms
  | p :: ps, m :: ms =>
    if mergeBefore p m then p :: imduMergeOrder ps (m :: ms)
    else if mergeBefore m p then m :: imduMergeOrder (p :: ps) ms
    else p :: imduMergeOrder ps ms
termination_by l1 l2 => l1.length + l2.length

/-! ### imdu --add-missing sector padding (imdu.c lines 841-922) -/

/-- Modelled from the spec: the fixed per-track sector ceiling
(`LIBIMD_MAX_SECTORS_PER_TRACK`); the spec's data model gives the per-track
ceiling as 256, matching the 256-entry `used_ids` table and the byte-wide
sector IDs in imdu.c. -/
def LIBIMD_MAX_SECTORS_PER_TRACK : ℕ := 256

/-- Modelled from the spec: bit 7 of the head byte flags a cylinder map. -/
def IMD_HFLAG_CMAP_PRES : ℕ := 0x80

/-- Modelled from the spec: bit 6 of the head byte flags a head map. -/
def IMD_HFLAG_HMAP_PRES : ℕ := 0x40

/-- The fields of libimd's `ImdTrackInfo` that imdu.c's add-missing block
reads and writes; the per-slot arrays are modelled as functions from the
slot index. -/
structure ImdTrack where
  cyl : ℕ
  head : ℕ
  hflag : ℕ
  numSectors : ℕ
  sectorSize : ℕ
  smap : ℕ → ℕ
  sflag : ℕ → ℕ
  cmap : ℕ → ℕ
  hmap : ℕ → ℕ

/-- imdu.c lines 887-890: the `used_ids` table after scanning the track's
current sector map (an ID is marked used when some slot below `num_sectors`
carries it; the source also guards `smap[k] < 256` before indexing). -/
def usedIdsInit (t : ImdTrack) : ℕ → Bool :=
  fun id =>
    (List.range t.numSectors).any
      (fun k => t.smap k == id && decide (t.smap k < 256))

/-- imdu.c lines 898-905: advance `next_smap_id_candidate` past used IDs;
returns the first unused ID at or above `cand`, or `none` when the scan
runs off the 256-entry table (the source then warns and stops adding). -/
def findFreeId (used : ℕ → Bool) (cand : ℕ) : Option ℕ :=
  if cand < 256 then
    if used cand then findFreeId used (cand + 1) else some cand
  else none
termination_by 256 - cand

/-- imdu.c lines 895-918: the placement loop appending `k` sectors starting
at physical slot `idx`.  Each appended slot gets the next free logical ID,
the unavailable status flag, and — when the corresponding map-presence flag
is set — cylinder/head map entries equal to the track's own coordinates;
the loop stops early at the per-track ceiling or when no free ID remains.
Returns the updated track and the final slot index (which imdu.c line 919
stores into `num_sectors`). -/
def imduAddLoop : ℕ → ImdTrack → (ℕ → Bool) → ℕ → ℕ → ImdTrack × ℕ
  | 0, t, _, _, idx => (t, idx)
  | k + 1, t, used, cand, idx =>
    if LIBIMD_MAX_SECTORS_PER_TRACK ≤ idx then (t, idx)
    else
      match findFreeId used cand with
      | none => (t, idx)
      | some id =>
        imduAddLoop k
          { t with
            smap := Function.update t.smap idx id
            sflag := Function.update t.sflag idx IMD_SDR_UNAVAILABLE
            cmap :=
              if t.hflag &&& IMD_HFLAG_CMAP_PRES ≠ 0 then
                Function.update t.cmap idx t.cyl
              else t.cmap
            hmap :=
              if t.hflag &&& IMD_HFLAG_HMAP_PRES ≠ 0 then
                Function.update t.hmap idx t.head
              else t.hmap }
          (Function.update used id true) id (idx + 1)

/-- imdu.c lines 841-922: the whole add-missing transformation of one
loaded track.  The block runs only when the track has a positive sector
size and fewer sectors than the requested target (the target is read
through a `uint8_t` cast, hence `target % 256`); the target is clamped to
the per-track ceiling, and the placement loop appends the difference.  The
data-buffer realloc/fill of lines 863-884 only manages the payload bytes
and is not modelled. -/
def imduAddMissing (target : ℕ) (t : ImdTrack) : ImdTrack :=
  if 0 < t.sectorSize ∧ t.numSectors < target % 256 then
    let targetTotal := min (target % 256) LIBIMD_MAX_SECTORS_PER_TRACK
    let numToAdd := targetTotal - t.numSectors
    if 0 < numToAdd then
      let res := imduAddLoop numToAdd t (usedIdsInit t) 0 t.numSectors
      { res.1 with numSectors := res.2 }
    else t
  else t

/-! ## Theorems -/

/-- Claim C7: for every track mode byte m in 0..5 the bit-rate class is
m % 3 with class 0 = 500 kbps, class 1 = 300 kbps, class 2 = 250 kbps; the
fixed table MODE_RATES = {500,300,250,500,300,250} agrees with that
derivation, modes 0-2 are FM and modes 3-5 are MFM, and imda's
modes_used accounting (switch on mode % 3) tags exactly the rate that
MODE_RATES assigns to the mode. -/
theorem mode_rate_class_matches_tables :
    ∀ m : Fin 6,
      MODE_RATES.getD m.val 0 = specRateOfClass (m.val % 3) ∧
      isMFM m.val = decide (3 ≤ m.val) ∧
      imdaModeBit m.val = imdaBitOfRate (MODE_RATES.getD m.val 0) ∧
      MODE_TO_RATE_CODE.getD m.val 0 = MODE_TO_RATE_CODE.getD (m.val % 3) 0 := by
  decide

/-- Claim C1 (code bug): with `imdchk_check_file` returning 0 and a
check-failures mask consisting solely of the SequenceCylinderDecrease bit
(0x0080), running with error mask 0 (all checks reclassified as warnings,
so the failure mask ANDed with the error mask is zero) still yields final
exit code 1, not the claimed 0: the error-mask conditional in imdchk.c
lines 287-292 is commented out, so line 288 sets `final_exit_code = 1`
unconditionally. -/
theorem imdchk_exit_code_ignores_error_mask :
    imdchkFinalExitCode 0 0x0080 0 = 1 ∧ 0x0080 &&& 0 = 0 := by
  constructor
  · rfl
  · decide

/-- Claim C6: a `-T` rate-translation request either leaves the 6-entry
translation table unchanged (in particular when the matched source mode has
no same-side target, i.e. a request across the FM/MFM boundary is rejected
and the table keeps the identity for that mode), or it updates exactly one
entry `tmode[i] := j` where both `i` and `j` match the requested rates and
lie on the same side of the FM/MFM boundary (both < 3 or both ≥ 3). -/
theorem imdu_mode_translation_same_side (rateFrom rateTo : ℕ)
    (tmode : List ℕ) :
    imduApplyModeTranslation rateFrom rateTo tmode = tmode ∨
    ∃ i j, i < 6 ∧ j < 6 ∧ sameFmMfmSide i j = true ∧
      rateCodeMatches (MODE_TO_RATE_CODE.getD i 0) rateFrom = true ∧
      rateCodeMatches (MODE_TO_RATE_CODE.getD j 0) rateTo = true ∧
      imduApplyModeTranslation rateFrom rateTo tmode = tmode.set i j := by
  unfold imduApplyModeTranslation
  cases hfrom : (List.range 6).find?
      (fun i => rateCodeMatches (MODE_TO_RATE_CODE.getD i 0) rateFrom) with
  | none => exact Or.inl rfl
  | some i =>
    dsimp only
    cases hto : (List.range 6).find?
        (fun j => rateCodeMatches (MODE_TO_RATE_CODE.getD j 0) rateTo &&
          sameFmMfmSide i j) with
    | none => exact Or.inl rfl
    | some j =>
      have hj := List.find?_some hto
      simp only [Bool.and_eq_true] at hj
      refine Or.inr ⟨i, j, ?_, ?_, hj.2, ?_, hj.1, rfl⟩
      · have := List.mem_of_find?_eq_some hfrom
        simpa using List.mem_range.mp (by simpa using this)
      · have := List.mem_of_find?_eq_some hto
        simpa using List.mem_range.mp (by simpa using this)
      · simpa using List.find?_some hfrom

/-! ### Helper lemmas about the flag rewrite -/

lemma composeFlag_hasData (b : ℕ) (dam err : Bool) (hb : b = 1 ∨ b = 2) :
    sdrHasData (imduComposeFlag b dam err) = true := by
  rcases hb with h | h <;> subst h <;> revert dam err <;> decide

lemma composeFlag_isCompressed (b : ℕ) (dam err : Bool)
    (hb : b = 1 ∨ b = 2) :
    sdrIsCompressed (imduComposeFlag b dam err) = (b == 2) := by
  rcases hb with h | h <;> subst h <;> revert dam err <;> decide

lemma composeFlag_hasDam (b : ℕ) (dam err : Bool) (hb : b = 1 ∨ b = 2) :
    sdrHasDam (imduComposeFlag b dam err) = dam := by
  rcases hb with h | h <;> subst h <;> revert dam err <;> decide

lemma composeFlag_hasErr (b : ℕ) (dam err : Bool) (hb : b = 1 ∨ b = 2) :
    sdrHasErr (imduComposeFlag b dam err) = err := by
  rcases hb with h | h <;> subst h <;> revert dam err <;> decide

lemma targetBaseType_mem (cm : CompressionMode) (origFlag : ℕ) (u : Bool) :
    imduTargetBaseType cm origFlag u = 1 ∨
      imduTargetBaseType cm origFlag u = 2 := by
  cases cm <;>
    simp only [imduTargetBaseType, IMD_SDR_NORMAL, IMD_SDR_COMPRESSED] <;>
    first
      | (split_ifs <;> simp)
      | simp

lemma imdIsUniform_replicate (n v : ℕ) (h : 0 < n) :
    imdIsUniform (List.replicate n v) = true := by
  cases n with
  | zero => omega
  | succ m =>
    simp [imdIsUniform, List.replicate_succ, List.all_eq_true,
      List.mem_replicate]

/-- Claim C3: under the preserve-as-read policy (IMD_COMPRESSION_AS_READ) a
data-bearing sector's emitted flag is compressed only if the original flag
was already compressed and the bytes are uniform; a sector read as normal is
never emitted compressed, uniform bytes or not. -/
theorem imdu_as_read_preserves_compression (w : ImdWriteOpts) (origFlag : ℕ)
    (u : Bool) (hcm : w.compressionMode = CompressionMode.asRead)
    (hd : sdrHasData origFlag = true) :
    (sdrIsCompressed (imduFinalSflag w origFlag u) = true →
      sdrIsCompressed origFlag = true ∧ u = true) ∧
    (sdrIsCompressed origFlag = false →
      sdrIsCompressed (imduFinalSflag w origFlag u) = false) := by
  have hb := targetBaseType_mem w.compressionMode origFlag u
  unfold imduFinalSflag
  rw [hd]
  simp only [if_true]
  rw [composeFlag_isCompressed _ _ _ hb]
  rw [hcm] at hb ⊢
  constructor
  · intro hcomp
    cases hco : sdrIsCompressed origFlag <;> cases hu : u <;>
      simp only [imduTargetBaseType, hco, hu, if_true, if_false,
        Bool.false_eq_true, IMD_SDR_NORMAL, IMD_SDR_COMPRESSED] at hcomp <;>
      simp_all
  · intro hco
    simp [imduTargetBaseType, hco, IMD_SDR_NORMAL]

/-- Witness for `imdu_as_read_preserves_compression` at a normal sector
(flag 1) with uniform data under default write options. -/
theorem imdu_as_read_preserves_compression_witness :
    (sdrIsCompressed
        (imduFinalSflag ⟨CompressionMode.asRead, false, false⟩ 1 true) =
          true →
      sdrIsCompressed 1 = true ∧ true = true) ∧
    (sdrIsCompressed 1 = false →
      sdrIsCompressed
        (imduFinalSflag ⟨CompressionMode.asRead, false, false⟩ 1 true) =
          false) :=
  imdu_as_read_preserves_compression ⟨CompressionMode.asRead, false, false⟩
    1 true rfl (by decide)

/-- Claim C4: under force-compress-when-uniform
(IMD_COMPRESSION_FORCE_COMPRESS) a data-bearing sector whose bytes all equal
`v` is emitted compressed with the single byte `v` as payload, decoding that
compressed form reproduces `sectorSize` copies of `v`, and a sector whose
bytes are not all identical is emitted in full-size normal form. -/
theorem imdu_force_compress_uniform_roundtrip
    (sectorSize v fill origFlag : ℕ) (origCompressed : Bool)
    (w : ImdWriteOpts) (data : List ℕ) (hsz : 0 < sectorSize)
    (hcm : w.compressionMode = CompressionMode.forceCompress)
    (horig : sdrHasData origFlag = true)
    (hnu : imdIsUniform data = false) :
    encodeSector (List.replicate sectorSize v) origCompressed
        CompressionMode.forceCompress = (true, [v]) ∧
    sdrIsCompressed
        (imduFinalSflag w origFlag
          (imdIsUniform (List.replicate sectorSize v))) = true ∧
    decodeSector IMD_SDR_COMPRESSED [v] sectorSize fill =
      some (List.replicate sectorSize v) ∧
    encodeSector data origCompressed CompressionMode.forceCompress =
      (false, data) ∧
    sdrIsCompressed (imduFinalSflag w origFlag (imdIsUniform data)) =
      false := by
  have hu := imdIsUniform_replicate sectorSize v hsz
  have hb1 := targetBaseType_mem w.compressionMode origFlag true
  have hb2 := targetBaseType_mem w.compressionMode origFlag false
  refine ⟨?_, ?_, ?_, ?_, ?_⟩
  · unfold encodeSector
    simp only [hu, if_true]
    cases sectorSize with
    | zero => omega
    | succ m => simp [List.replicate_succ]
  · rw [hu]
    unfold imduFinalSflag
    rw [horig]
    simp only [if_true]
    rw [composeFlag_isCompressed _ _ _ hb1, hcm]
    simp [imduTargetBaseType, IMD_SDR_COMPRESSED]
  · simp [decodeSector, sdrHasData, sdrIsCompressed, IMD_SDR_COMPRESSED]
  · simp [encodeSector, hnu]
  · rw [hnu]
    unfold imduFinalSflag
    rw [horig]
    simp only [if_true]
    rw [composeFlag_isCompressed _ _ _ hb2, hcm]
    simp [imduTargetBaseType, IMD_SDR_NORMAL]

/-- Witness for `imdu_force_compress_uniform_roundtrip`: 4 bytes of 0xAA
versus the non-uniform buffer [1, 2]. -/
theorem imdu_force_compress_uniform_roundtrip_witness :
    encodeSector (List.replicate 4 0xAA) false
        CompressionMode.forceCompress = (true, [0xAA]) ∧
    sdrIsCompressed
        (imduFinalSflag ⟨CompressionMode.forceCompress, false, false⟩ 1
          (imdIsUniform (List.replicate 4 0xAA))) = true ∧
    decodeSector IMD_SDR_COMPRESSED [0xAA] 4 0 =
      some (List.replicate 4 0xAA) ∧
    encodeSector [1, 2] false CompressionMode.forceCompress =
      (false, [1, 2]) ∧
    sdrIsCompressed
        (imduFinalSflag ⟨CompressionMode.forceCompress, false, false⟩ 1
          (imdIsUniform [1, 2])) = false :=
  imdu_force_compress_uniform_roundtrip 4 0xAA 0 1 false
    ⟨CompressionMode.forceCompress, false, false⟩ [1, 2] (by decide) rfl
    (by decide) (by decide)

/-- Claim C5: writing with `force_non_deleted` emits no deleted-address
marker, writing with `force_non_bad` emits no error marker, and the
data-present and compressed components of the emitted flag do not depend on
either option. -/
theorem imdu_force_flags_clear_markers (cm : CompressionMode)
    (nb nd : Bool) (origFlag : ℕ) (u : Bool) :
    sdrHasDam (imduFinalSflag ⟨cm, nb, true⟩ origFlag u) = false ∧
    sdrHasErr (imduFinalSflag ⟨cm, true, nd⟩ origFlag u) = false ∧
    ∀ nb₁ nd₁ nb₂ nd₂ : Bool,
      sdrHasData (imduFinalSflag ⟨cm, nb₁, nd₁⟩ origFlag u) =
        sdrHasData (imduFinalSflag ⟨cm, nb₂, nd₂⟩ origFlag u) ∧
      sdrIsCompressed (imduFinalSflag ⟨cm, nb₁, nd₁⟩ origFlag u) =
        sdrIsCompressed (imduFinalSflag ⟨cm, nb₂, nd₂⟩ origFlag u) := by
  have hb := targetBaseType_mem cm origFlag u
  unfold imduFinalSflag
  cases hd : sdrHasData origFlag
  · refine ⟨?_, ?_, fun _ _ _ _ => ⟨?_, ?_⟩⟩ <;>
      simp [IMD_SDR_UNAVAILABLE, sdrHasDam, sdrHasErr]
  · simp only [if_true]
    refine ⟨?_, ?_, fun nb₁ nd₁ nb₂ nd₂ => ⟨?_, ?_⟩⟩
    · rw [composeFlag_hasDam _ _ _ hb]
      simp
    · rw [composeFlag_hasErr _ _ _ hb]
      simp
    · rw [composeFlag_hasData _ _ _ hb, composeFlag_hasData _ _ _ hb]
    · rw [composeFlag_isCompressed _ _ _ hb,
        composeFlag_isCompressed _ _ _ hb]

/-- Claim C2 counterexample: for sector_count = 1 the claim expects the
round-trip to collapse to `some 1` (factor ≥ sector_count), but the
analyzer tries factors 1 through sector_count - 1 — an empty range for a
one-sector track — and returns `none`. -/
theorem interleave_roundtrip_fails_for_one_sector :
    calculateBestInterleave (generateInterleavedMap 1 1 1) = none ∧
    calculateBestInterleave (generateInterleavedMap 1 1 1) ≠ some 1 := by
  decide

/-- Claim C2 as amended: for sector_count in {10, 26} and factor in
{1, 2, 3, 7} the analyzer recovers exactly the generating factor (it is the
smallest factor reproducing the sequence), while for sector_count = 1 it
returns `none` for every factor because the candidate range 1..0 is
empty. -/
theorem interleave_roundtrip :
    calculateBestInterleave (generateInterleavedMap 10 1 1) = some 1 ∧
    calculateBestInterleave (generateInterleavedMap 10 2 1) = some 2 ∧
    calculateBestInterleave (generateInterleavedMap 10 3 1) = some 3 ∧
    calculateBestInterleave (generateInterleavedMap 10 7 1) = some 7 ∧
    calculateBestInterleave (generateInterleavedMap 26 1 1) = some 1 ∧
    calculateBestInterleave (generateInterleavedMap 26 2 1) = some 2 ∧
    calculateBestInterleave (generateInterleavedMap 26 3 1) = some 3 ∧
    calculateBestInterleave (generateInterleavedMap 26 7 1) = some 7 ∧
    calculateBestInterleave (generateInterleavedMap 1 1 1) = none ∧
    calculateBestInterleave (generateInterleavedMap 1 2 1) = none ∧
    calculateBestInterleave (generateInterleavedMap 1 3 1) = none ∧
    calculateBestInterleave (generateInterleavedMap 1 7 1) = none := by
  decide

lemma testBit_eight_of_or_struct (d : ℕ) :
    ((d ||| C_DIFF_FILE_STRUCT) &&& C_DIFF_FILE_STRUCT).testBit 8 = true ∧
    ((d ||| C_DIFF_FILE_STRUCT) &&& C_MASK_HARD_DIFF).testBit 8 = true := by
  have h256 : Nat.testBit C_DIFF_FILE_STRUCT 8 = true := by decide
  have hmask : Nat.testBit C_MASK_HARD_DIFF 8 = true := by decide
  have hor : (d ||| C_DIFF_FILE_STRUCT).testBit 8 = true := by
    rw [Nat.testBit_or, h256, Bool.or_true]
  exact ⟨by rw [Nat.testBit_and, hor, h256]; rfl,
    by rw [Nat.testBit_and, hor, hmask]; rfl⟩

lemma ne_zero_of_testBit_eight {x : ℕ} (h : x.testBit 8 = true) : x ≠ 0 := by
  intro h0
  rw [h0, Nat.zero_testBit] at h
  exact Bool.false_ne_true h

/-- Claim C8: when one imdcmp input stream reaches clean end-of-file while
the other still holds a track, the comparison loop records the
structural-mismatch bit `C_DIFF_FILE_STRUCT` and terminates immediately
(whichever side ended first and whatever differences `d` were accumulated
before), and the resulting flags force the 'files differ' exit code 1 —
never the file-error code 5. -/
theorem imdcmp_structure_mismatch_exits_one (opts : CmpOptions) (d : ℕ)
    (t : CmpTrack) (ts : List CmpTrack) :
    imdcmpLoop opts [] (t :: ts) d = d ||| C_DIFF_FILE_STRUCT ∧
    imdcmpLoop opts (t :: ts) [] d = d ||| C_DIFF_FILE_STRUCT ∧
    (d ||| C_DIFF_FILE_STRUCT) &&& C_DIFF_FILE_STRUCT ≠ 0 ∧
    imdcmpExitCode opts (d ||| C_DIFF_FILE_STRUCT) = EXIT_DIFF ∧
    EXIT_DIFF = 1 ∧ EXIT_DIFF ≠ EXIT_FILE_ERROR := by
  obtain ⟨hbit, hmask⟩ := testBit_eight_of_or_struct d
  refine ⟨rfl, rfl, ne_zero_of_testBit_eight hbit, ?_, rfl, by decide⟩
  unfold imdcmpExitCode
  rw [if_pos (ne_zero_of_testBit_eight hmask)]

/-! ### Helper lemmas about the merge ordering -/

lemma mergeBefore_trans {a b c : MergeTrack} (h1 : mergeBefore a b = true)
    (h2 : mergeBefore b c = true) : mergeBefore a c = true := by
  simp only [mergeBefore, Bool.or_eq_true, Bool.and_eq_true, decide_eq_true_eq,
    beq_iff_eq] at h1 h2 ⊢
  omega

lemma eq_keys_of_not_mergeBefore {a b : MergeTrack}
    (h1 : mergeBefore a b = false) (h2 : mergeBefore b a = false) :
    a.cyl = b.cyl ∧ a.head = b.head := by
  simp only [mergeBefore, Bool.or_eq_false_iff, Bool.and_eq_false_iff,
    decide_eq_false_iff_not, beq_eq_false_iff_ne, ne_eq] at h1 h2
  omega

lemma mergeBefore_congr_left {a b c : MergeTrack} (hc : a.cyl = b.cyl)
    (hh : a.head = b.head) : mergeBefore a c = mergeBefore b c := by
  simp [mergeBefore, hc, hh]

lemma mem_mergeOrder (x : MergeTrack) (ps ms : List MergeTrack)
    (hx : x ∈ imduMergeOrder ps ms) : x ∈ ps ∨ x ∈ ms := by
  induction ps, ms using imduMergeOrder.induct with
  | case1 => simp [imduMergeOrder] at hx
  | case2 p ps ih =>
    rw [imduMergeOrder] at hx
    rcases List.mem_cons.mp hx with h | h
    · exact Or.inl (h ▸ List.mem_cons_self _ _)
    · rcases ih h with h' | h'
      · exact Or.inl (List.mem_cons_of_mem _ h')
      · exact Or.inr h'
  | case3 m ms ih =>
    rw [imduMergeOrder] at hx
    rcases List.mem_cons.mp hx with h | h
    · exact Or.inr (h ▸ List.mem_cons_self _ _)
    · rcases ih h with h' | h'
      · exact Or.inl h'
      · exact Or.inr (List.mem_cons_of_mem _ h')
  | case4 p ps m ms hpm ih =>
    rw [imduMergeOrder, if_pos hpm] at hx
    rcases List.mem_cons.mp hx with h | h
    · exact Or.inl (h ▸ List.mem_cons_self _ _)
    · rcases ih h with h' | h'
      · exact Or.inl (List.mem_cons_of_mem _ h')
      · exact Or.inr h'
  | case5 p ps m ms hpm hmp ih =>
    rw [imduMergeOrder, if_neg (by simp [hpm]), if_pos hmp] at hx
    rcases List.mem_cons.mp hx with h | h
    · exact Or.inr (h ▸ List.mem_cons_self _ _)
    · rcases ih h with h' | h'
      · exact Or.inl h'
      · exact Or.inr (List.mem_cons_of_mem _ h')
  | case6 p ps m ms hpm hmp ih =>
    rw [imduMergeOrder, if_neg (by simp [hpm]), if_neg (by simp [hmp])] at hx
    rcases List.mem_cons.mp hx with h | h
    · exact Or.inl (h ▸ List.mem_cons_self _ _)
    · rcases ih h with h' | h'
      · exact Or.inl (List.mem_cons_of_mem _ h')
      · exact Or.inr (List.mem_cons_of_mem _ h')

lemma pairwise_mergeOrder :
    ∀ ps ms : List MergeTrack,
      List.Pairwise (fun a b => mergeBefore a b = true) ps →
      List.Pairwise (fun a b => mergeBefore a b = true) ms →
      List.Pairwise (fun a b => mergeBefore a b = true)
        (imduMergeOrder ps ms) := by
  intro ps ms
  induction ps, ms using imduMergeOrder.induct with
  | case1 =>
    intro _ _
    simp [imduMergeOrder]
  | case2 p ps ih =>
    intro h1 h2
    obtain ⟨hp, h1'⟩ := List.pairwise_cons.mp h1
    rw [imduMergeOrder]
    refine List.pairwise_cons.mpr ⟨?_, ih h1' h2⟩
    intro y hy
    rcases mem_mergeOrder y ps [] hy with h | h
    · exact hp y h
    · simp at h
  | case3 m ms ih =>
    intro h1 h2
    obtain ⟨hm, h2'⟩ := List.pairwise_cons.mp h2
    rw [imduMergeOrder]
    refine List.pairwise_cons.mpr ⟨?_, ih h1 h2'⟩
    intro y hy
    rcases mem_mergeOrder y [] ms hy with h | h
    · simp at h
    · exact hm y h
  | case4 p ps m ms hpm ih =>
    intro h1 h2
    obtain ⟨hp, h1'⟩ := List.pairwise_cons.mp h1
    rw [imduMergeOrder, if_pos hpm]
    refine List.pairwise_cons.mpr ⟨?_, ih h1' h2⟩
    intro y hy
    rcases mem_mergeOrder y ps (m :: ms) hy with h | h
    · exact hp y h
    · rcases List.mem_cons.mp h with h' | h'
      · exact h' ▸ hpm
      · exact mergeBefore_trans hpm ((List.pairwise_cons.mp h2).1 y h')
  | case5 p ps m ms hpm hmp ih =>
    intro h1 h2
    obtain ⟨hm, h2'⟩ := List.pairwise_cons.mp h2
    rw [imduMergeOrder, if_neg (by simp [hpm]), if_pos hmp]
    refine List.pairwise_cons.mpr ⟨?_, ih h1 h2'⟩
    intro y hy
    rcases mem_mergeOrder y (p :: ps) ms hy with h | h
    · rcases List.mem_cons.mp h with h' | h'
      · exact h' ▸ hmp
      · exact mergeBefore_trans hmp ((List.pairwise_cons.mp h1).1 y h')
    · exact hm y h
  | case6 p ps m ms hpm hmp ih =>
    intro h1 h2
    obtain ⟨hp, h1'⟩ := List.pairwise_cons.mp h1
    obtain ⟨hm, h2'⟩ := List.pairwise_cons.mp h2
    have hkeys := eq_keys_of_not_mergeBefore (by simpa using hpm)
      (by simpa using hmp)
    rw [imduMergeOrder, if_neg (by simp [hpm]), if_neg (by simp [hmp])]
    refine List.pairwise_cons.mpr ⟨?_, ih h1' h2'⟩
    intro y hy
    rcases mem_mergeOrder y ps ms hy with h | h
    · exact hp y h
    · rw [mergeBefore_congr_left hkeys.1 hkeys.2]
      exact hm y h

/-- Claim C10: with both imdu input streams sorted strictly ascending by
(cylinder, head), the merge loop processes and writes tracks in ascending
(cylinder, head) order across both inputs; and whenever the primary and
merge streams simultaneously hold tracks with equal cylinder and head, the
primary file's track is processed while the merge file's track is discarded
unprocessed. -/
theorem imdu_merge_processing_order (ps ms : List MergeTrack)
    (h1 : List.Pairwise (fun a b => mergeBefore a b = true) ps)
    (h2 : List.Pairwise (fun a b => mergeBefore a b = true) ms) :
    List.Pairwise (fun a b => mergeBefore a b = true)
      (imduMergeOrder ps ms) ∧
    ∀ (p m : MergeTrack) (ps' ms' : List MergeTrack),
      p.cyl = m.cyl → p.head = m.head →
      imduMergeOrder (p :: ps') (m :: ms') = p :: imduMergeOrder ps' ms' := by
  refine ⟨pairwise_mergeOrder ps ms h1 h2, ?_⟩
  intro p m ps' ms' hc hh
  have hb1 : mergeBefore p m = false := by
    simp only [mergeBefore, hc, hh]
    simp
  have hb2 : mergeBefore m p = false := by
    simp only [mergeBefore, ← hc, ← hh]
    simp
  rw [imduMergeOrder, if_neg (by simp [hb1]), if_neg (by simp [hb2])]

/-- Witness for `imdu_merge_processing_order` on two concrete sorted
two-track streams sharing the (0,0) track. -/
theorem imdu_merge_processing_order_witness :
    List.Pairwise (fun a b => mergeBefore a b = true)
      (imduMergeOrder [⟨0, 0, 1⟩, ⟨1, 0, 2⟩] [⟨0, 0, 3⟩, ⟨0, 1, 4⟩]) :=
  (imdu_merge_processing_order [⟨0, 0, 1⟩, ⟨1, 0, 2⟩] [⟨0, 0, 3⟩, ⟨0, 1, 4⟩]
    (by decide) (by decide)).1

/-! ### Helper lemmas about the add-missing loop -/

lemma findFreeId_spec :
    ∀ (used : ℕ → Bool) (cand : ℕ),
      (∃ f, cand ≤ f ∧ f < 256 ∧ used f = false) →
      ∃ id, findFreeId used cand = some id ∧ cand ≤ id ∧ id < 256 ∧
        used id = false ∧ ∀ x, cand ≤ x → x < id → used x = true := by
  intro used cand
  induction cand using findFreeId.induct used with
  | case1 cand h hused ih =>
    intro hex
    obtain ⟨f, hcf, hf256, hfree⟩ := hex
    have hne : f ≠ cand := by
      intro he
      rw [he, hused] at hfree
      exact absurd hfree (by simp)
    obtain ⟨id, heq, hle, h256, hfr, hscan⟩ :=
      ih ⟨f, by omega, hf256, hfree⟩
    refine ⟨id, ?_, by omega, h256, hfr, ?_⟩
    · rw [findFreeId, if_pos h, if_pos hused]
      exact heq
    · intro x hx1 hx2
      rcases Nat.eq_or_lt_of_le hx1 with he | hlt
      · exact he ▸ hused
      · exact hscan x hlt hx2
  | case2 cand h hused =>
    intro _
    refine ⟨cand, ?_, le_refl _, h, by simpa using hused,
      fun x h1 h2 => absurd h2 (by omega)⟩
    rw [findFreeId, if_pos h, if_neg hused]
  | case3 cand h =>
    intro hex
    obtain ⟨f, hcf, hf, _⟩ := hex
    omega

lemma exists_free_id (used : ℕ → Bool)
    (hcard : ((Finset.range 256).filter (fun x => used x = true)).card < 256) :
    ∃ f, f < 256 ∧ used f = false := by
  by_contra h
  push_neg at h
  have hall : (Finset.range 256).filter (fun x => used x = true) =
      Finset.range 256 := by
    apply Finset.filter_true_of_mem
    intro x hx
    exact Bool.ne_false_iff.mp (h x (Finset.mem_range.mp hx))
  rw [hall, Finset.card_range] at hcard
  omega

lemma card_filter_update_le (used : ℕ → Bool) (id : ℕ) :
    ((Finset.range 256).filter
        (fun x => Function.update used id true x = true)).card ≤
      ((Finset.range 256).filter (fun x => used x = true)).card + 1 := by
  have hsub : (Finset.range 256).filter
      (fun x => Function.update used id true x = true) ⊆
      insert id ((Finset.range 256).filter (fun x => used x = true)) := by
    intro x hx
    rcases eq_or_ne x id with he | hne
    · exact he ▸ Finset.mem_insert_self _ _
    · obtain ⟨hr, hv⟩ := Finset.mem_filter.mp hx
      rw [Function.update_noteq hne] at hv
      exact Finset.mem_insert_of_mem (Finset.mem_filter.mpr ⟨hr, hv⟩)
  exact le_trans (Finset.card_le_card hsub) (Finset.card_insert_le _ _)

lemma imduAddLoop_spec :
    ∀ (k : ℕ) (t : ImdTrack) (used : ℕ → Bool) (cand idx : ℕ),
      idx + k ≤ 255 →
      ((Finset.range 256).filter (fun x => used x = true)).card + k ≤ 255 →
      (∀ x, x < cand → used x = true) →
      (∀ i, i < idx → used (t.smap i) = true) →
      (∀ i, i < idx → ∀ j, j < idx → i ≠ j → t.smap i ≠ t.smap j) →
      (imduAddLoop k t used cand idx).2 = idx + k ∧
      (imduAddLoop k t used cand idx).1.numSectors = t.numSectors ∧
      (imduAddLoop k t used cand idx).1.cyl = t.cyl ∧
      (imduAddLoop k t used cand idx).1.head = t.head ∧
      (imduAddLoop k t used cand idx).1.hflag = t.hflag ∧
      (imduAddLoop k t used cand idx).1.sectorSize = t.sectorSize ∧
      (∀ i, i < idx →
        (imduAddLoop k t used cand idx).1.smap i = t.smap i ∧
        (imduAddLoop k t used cand idx).1.sflag i = t.sflag i ∧
        (imduAddLoop k t used cand idx).1.cmap i = t.cmap i ∧
        (imduAddLoop k t used cand idx).1.hmap i = t.hmap i) ∧
      (∀ i, idx ≤ i → i < idx + k →
        (imduAddLoop k t used cand idx).1.sflag i = IMD_SDR_UNAVAILABLE ∧
        (imduAddLoop k t used cand idx).1.smap i < 256 ∧
        used ((imduAddLoop k t used cand idx).1.smap i) = false ∧
        (t.hflag &&& IMD_HFLAG_CMAP_PRES ≠ 0 →
          (imduAddLoop k t used cand idx).1.cmap i = t.cyl) ∧
        (t.hflag &&& IMD_HFLAG_HMAP_PRES ≠ 0 →
          (imduAddLoop k t used cand idx).1.hmap i = t.head)) ∧
      (∀ i, i < idx + k → ∀ j, j < idx + k → i ≠ j →
        (imduAddLoop k t used cand idx).1.smap i ≠
          (imduAddLoop k t used cand idx).1.smap j) := by
  intro k
  induction k with
  | zero =>
    intro t used cand idx h1 h2 h3 h4 h5
    refine ⟨rfl, rfl, rfl, rfl, rfl, rfl,
      fun i _ => ⟨rfl, rfl, rfl, rfl⟩,
      fun i hi1 hi2 => absurd hi2 (by omega),
      fun i hi j hj hne => h5 i (by omega) j (by omega) hne⟩
  | succ k ih =>
    intro t used cand idx h1 h2 h3 h4 h5
    have hidx : ¬ (LIBIMD_MAX_SECTORS_PER_TRACK ≤ idx) := by
      unfold LIBIMD_MAX_SECTORS_PER_TRACK
      omega
    have hfree : ∃ f, cand ≤ f ∧ f < 256 ∧ used f = false := by
      obtain ⟨f, hf256, hffree⟩ := exists_free_id used (by omega)
      rcases Nat.lt_or_ge f cand with hlt | hge
      · rw [h3 f hlt] at hffree
        exact absurd hffree (by simp)
      · exact ⟨f, hge, hf256, hffree⟩
    obtain ⟨id, hfind, hcid, hid256, hidfree, hscan⟩ :=
      findFreeId_spec used cand hfree
    set t1 : ImdTrack :=
      { t with
        smap := Function.update t.smap idx id
        sflag := Function.update t.sflag idx IMD_SDR_UNAVAILABLE
        cmap :=
          if t.hflag &&& IMD_HFLAG_CMAP_PRES ≠ 0 then
            Function.update t.cmap idx t.cyl
          else t.cmap
        hmap :=
          if t.hflag &&& IMD_HFLAG_HMAP_PRES ≠ 0 then
            Function.update t.hmap idx t.head
          else t.hmap } with ht1
    set used1 : ℕ → Bool := Function.update used id true with huse1
    have hres : imduAddLoop (k + 1) t used cand idx =
        imduAddLoop k t1 used1 id (idx + 1) := by
      rw [imduAddLoop, if_neg hidx, hfind]
    have ht1ns : t1.numSectors = t.numSectors := by rw [ht1]
    have ht1cyl : t1.cyl = t.cyl := by rw [ht1]
    have ht1head : t1.head = t.head := by rw [ht1]
    have ht1hflag : t1.hflag = t.hflag := by rw [ht1]
    have ht1ss : t1.sectorSize = t.sectorSize := by rw [ht1]
    have ht1smap : ∀ i, i ≠ idx → t1.smap i = t.smap i := by
      intro i hi
      rw [ht1]
      exact Function.update_noteq hi _ _
    have ht1smapidx : t1.smap idx = id := by
      rw [ht1]
      exact Function.update_same _ _ _
    have ht1sflag : ∀ i, i ≠ idx → t1.sflag i = t.sflag i := by
      intro i hi
      rw [ht1]
      exact Function.update_noteq hi _ _
    have ht1sflagidx : t1.sflag idx = IMD_SDR_UNAVAILABLE := by
      rw [ht1]
      exact Function.update_same _ _ _
    have ht1cmap : ∀ i, i ≠ idx → t1.cmap i = t.cmap i := by
      intro i hi
      rw [ht1]
      dsimp only
      split
      · exact Function.update_noteq hi _ _
      · rfl
    have ht1cmapidx : t.hflag &&& IMD_HFLAG_CMAP_PRES ≠ 0 →
        t1.cmap idx = t.cyl := by
      intro hpres
      rw [ht1]
      dsimp only
      rw [if_pos hpres]
      exact Function.update_same _ _ _
    have ht1hmap : ∀ i, i ≠ idx → t1.hmap i = t.hmap i := by
      intro i hi
      rw [ht1]
      dsimp only
      split
      · exact Function.update_noteq hi _ _
      · rfl
    have ht1hmapidx : t.hflag &&& IMD_HFLAG_HMAP_PRES ≠ 0 →
        t1.hmap idx = t.head := by
      intro hpres
      rw [ht1]
      dsimp only
      rw [if_pos hpres]
      exact Function.update_same _ _ _
    have hu1_of_hu : ∀ x, used x = true → used1 x = true := by
      intro x hx
      rcases eq_or_ne x id with he | hne
      · rw [huse1, he]
        exact Function.update_same _ _ _
      · rw [huse1, Function.update_noteq hne]
        exact hx
    have hu1id : used1 id = true := by
      rw [huse1]
      exact Function.update_same _ _ _
    have hu_of_hu1 : ∀ x, used1 x = false → used x = false := by
      intro x hx
      rcases eq_or_ne x id with he | hne
      · rw [he, hu1id] at hx
        exact absurd hx (by simp)
      · rw [huse1, Function.update_noteq hne] at hx
        exact hx
    have ha1 : (idx + 1) + k ≤ 255 := by omega
    have ha2 : ((Finset.range 256).filter (fun x => used1 x = true)).card +
        k ≤ 255 := by
      have := card_filter_update_le used id
      rw [← huse1] at this
      omega
    have ha3 : ∀ x, x < id → used1 x = true := by
      intro x hx
      rcases Nat.lt_or_ge x cand with hlt | hge
      · exact hu1_of_hu x (h3 x hlt)
      · exact hu1_of_hu x (hscan x hge hx)
    have ha4 : ∀ i, i < idx + 1 → used1 (t1.smap i) = true := by
      intro i hi
      rcases Nat.lt_or_ge i idx with hlt | hge
      · rw [ht1smap i (by omega)]
        exact hu1_of_hu _ (h4 i hlt)
      · have : i = idx := by omega
        rw [this, ht1smapidx]
        exact hu1id
    have ha5 : ∀ i, i < idx + 1 → ∀ j, j < idx + 1 → i ≠ j →
        t1.smap i ≠ t1.smap j := by
      intro i hi j hj hne
      rcases Nat.lt_or_ge i idx with hilt | hige
      · rcases Nat.lt_or_ge j idx with hjlt | hjge
        · rw [ht1smap i (by omega), ht1smap j (by omega)]
          exact h5 i hilt j hjlt hne
        · have hj' : j = idx := by omega
          rw [ht1smap i (by omega), hj', ht1smapidx]
          intro he
          rw [← he] at hidfree
          rw [h4 i hilt] at hidfree
          exact absurd hidfree (by simp)
      · have hi' : i = idx := by omega
        have hjlt : j < idx := by omega
        rw [hi', ht1smapidx, ht1smap j (by omega)]
        intro he
        rw [he] at hidfree
        rw [h4 j hjlt] at hidfree
        exact absurd hidfree (by simp)
    obtain ⟨b1, b2, b3, b4, b5, b6, bold, bnew, bdup⟩ :=
      ih t1 used1 id (idx + 1) ha1 ha2 ha3 ha4 ha5
    rw [hres]
    refine ⟨by rw [b1]; omega, by rw [b2, ht1ns], by rw [b3, ht1cyl],
      by rw [b4, ht1head], by rw [b5, ht1hflag], by rw [b6, ht1ss],
      ?_, ?_, ?_⟩
    · intro i hi
      obtain ⟨o1, o2, o3, o4⟩ := bold i (by omega)
      exact ⟨by rw [o1, ht1smap i (by omega)],
        by rw [o2, ht1sflag i (by omega)],
        by rw [o3, ht1cmap i (by omega)],
        by rw [o4, ht1hmap i (by omega)]⟩
    · intro i hge hlt
      rcases Nat.lt_or_ge i (idx + 1) with hi1 | hi1
      · have hi' : i = idx := by omega
        obtain ⟨o1, o2, o3, o4⟩ := bold i hi1
        subst hi'
        refine ⟨by rw [o2, ht1sflagidx], ?_, ?_, ?_, ?_⟩
        · rw [o1, ht1smapidx]
          exact hid256
        · rw [o1, ht1smapidx]
          exact hidfree
        · intro hpres
          rw [o3]
          exact ht1cmapidx hpres
        · intro hpres
          rw [o4]
          exact ht1hmapidx hpres
      · obtain ⟨n1, n2, n3, n4, n5⟩ := bnew i hi1 (by omega)
        refine ⟨n1, n2, hu_of_hu1 _ n3, ?_, ?_⟩
        · intro hpres
          rw [n4 (by rw [ht1hflag]; exact hpres), ht1cyl]
        · intro hpres
          rw [n5 (by rw [ht1hflag]; exact hpres), ht1head]
    · intro i hi j hj hne
      exact bdup i (by omega) j (by omega) hne

/-- Claim C9: for a loaded track whose sector map is duplicate-free (with
byte-ranged IDs) and whose sector count is within the per-track ceiling,
imdu's --add-missing processing preserves the existing sector map and flag
entries, gives every appended slot the unavailable status flag, a logical
ID absent from the original map, and cylinder/head map entries equal to the
track's coordinates when those maps are present, keeps the resulting
sector count within `LIBIMD_MAX_SECTORS_PER_TRACK`, and preserves the
duplicate-free sector-map invariant. -/
theorem imdu_add_missing_invariants (target : ℕ) (t : ImdTrack)
    (hn : t.numSectors ≤ LIBIMD_MAX_SECTORS_PER_TRACK)
    (hvals : ∀ i, i < t.numSectors → t.smap i < 256)
    (hdup : ∀ i, i < t.numSectors → ∀ j, j < t.numSectors → i ≠ j →
      t.smap i ≠ t.smap j) :
    (imduAddMissing target t).numSectors ≤ LIBIMD_MAX_SECTORS_PER_TRACK ∧
    (∀ i, i < (imduAddMissing target t).numSectors →
      ∀ j, j < (imduAddMissing target t).numSectors → i ≠ j →
        (imduAddMissing target t).smap i ≠
          (imduAddMissing target t).smap j) ∧
    (∀ i, i < t.numSectors →
      (imduAddMissing target t).smap i = t.smap i ∧
      (imduAddMissing target t).sflag i = t.sflag i) ∧
    (∀ i, t.numSectors ≤ i → i < (imduAddMissing target t).numSectors →
      (imduAddMissing target t).sflag i = IMD_SDR_UNAVAILABLE ∧
      (∀ k, k < t.numSectors →
        (imduAddMissing target t).smap i ≠ t.smap k) ∧
      (t.hflag &&& IMD_HFLAG_CMAP_PRES ≠ 0 →
        (imduAddMissing target t).cmap i = t.cyl) ∧
      (t.hflag &&& IMD_HFLAG_HMAP_PRES ≠ 0 →
        (imduAddMissing target t).hmap i = t.head)) := by
  have h4 : ∀ i, i < t.numSectors → usedIdsInit t (t.smap i) = true := by
    intro i hi
    unfold usedIdsInit
    rw [List.any_eq_true]
    exact ⟨i, List.mem_range.mpr hi, by simp [hvals i hi]⟩
  by_cases hguard : 0 < t.sectorSize ∧ t.numSectors < target % 256
  · have hT255 : target % 256 ≤ 255 := by
      have := Nat.mod_lt target (show 0 < 256 by norm_num)
      omega
    have hTeq : min (target % 256) LIBIMD_MAX_SECTORS_PER_TRACK =
        target % 256 := by
      unfold LIBIMD_MAX_SECTORS_PER_TRACK
      omega
    have hpos :
        0 < min (target % 256) LIBIMD_MAX_SECTORS_PER_TRACK -
          t.numSectors := by
      rw [hTeq]
      omega
    have heq : imduAddMissing target t =
        { (imduAddLoop
            (min (target % 256) LIBIMD_MAX_SECTORS_PER_TRACK -
              t.numSectors) t (usedIdsInit t) 0 t.numSectors).1 with
          numSectors :=
            (imduAddLoop
              (min (target % 256) LIBIMD_MAX_SECTORS_PER_TRACK -
                t.numSectors) t (usedIdsInit t) 0 t.numSectors).2 } := by
      unfold imduAddMissing
      rw [if_pos hguard]
      dsimp only
      rw [if_pos hpos]
    have hcard : ((Finset.range 256).filter
        (fun x => usedIdsInit t x = true)).card ≤ t.numSectors := by
      have hsub : (Finset.range 256).filter
          (fun x => usedIdsInit t x = true) ⊆
          (Finset.range t.numSectors).image t.smap := by
        intro x hx
        obtain ⟨-, hv⟩ := Finset.mem_filter.mp hx
        unfold usedIdsInit at hv
        rw [List.any_eq_true] at hv
        obtain ⟨k, hk, hkv⟩ := hv
        simp only [Bool.and_eq_true, beq_iff_eq, decide_eq_true_eq] at hkv
        exact Finset.mem_image.mpr
          ⟨k, Finset.mem_range.mpr (List.mem_range.mp hk), hkv.1⟩
      calc ((Finset.range 256).filter
            (fun x => usedIdsInit t x = true)).card
          ≤ ((Finset.range t.numSectors).image t.smap).card :=
            Finset.card_le_card hsub
        _ ≤ (Finset.range t.numSectors).card := Finset.card_image_le
        _ = t.numSectors := Finset.card_range _
    obtain ⟨b1, b2, b3, b4, b5, b6, bold, bnew, bdup⟩ :=
      imduAddLoop_spec
        (min (target % 256) LIBIMD_MAX_SECTORS_PER_TRACK - t.numSectors) t
        (usedIdsInit t) 0 t.numSectors (by rw [hTeq]; omega)
        (by rw [hTeq]; omega) (fun x hx => absurd hx (Nat.not_lt_zero x)) h4
        hdup
    rw [heq]
    refine ⟨?_, ?_, ?_, ?_⟩
    · show (imduAddLoop _ t (usedIdsInit t) 0 t.numSectors).2 ≤ _
      rw [b1, hTeq]
      unfold LIBIMD_MAX_SECTORS_PER_TRACK
      omega
    · intro i hi j hj hne
      rw [show ({ (imduAddLoop _ t (usedIdsInit t) 0 t.numSectors).1 with
          numSectors :=
            (imduAddLoop _ t (usedIdsInit t) 0 t.numSectors).2} :
          ImdTrack).numSectors =
          (imduAddLoop _ t (usedIdsInit t) 0 t.numSectors).2 from rfl,
        b1] at hi hj
      exact bdup i hi j hj hne
    · intro i hi
      obtain ⟨o1, o2, -, -⟩ := bold i hi
      exact ⟨o1, o2⟩
    · intro i hge hlt
      rw [show ({ (imduAddLoop _ t (usedIdsInit t) 0 t.numSectors).1 with
          numSectors :=
            (imduAddLoop _ t (usedIdsInit t) 0 t.numSectors).2} :
          ImdTrack).numSectors =
          (imduAddLoop _ t (usedIdsInit t) 0 t.numSectors).2 from rfl,
        b1] at hlt
      obtain ⟨n1, n2, n3, n4, n5⟩ := bnew i hge hlt
      refine ⟨n1, ?_, n4, n5⟩
      intro k hk he
      rw [he] at n3
      rw [h4 k hk] at n3
      exact absurd n3 (by simp)
  · have heq : imduAddMissing target t = t := by
      unfold imduAddMissing
      rw [if_neg hguard]
    rw [heq]
    exact ⟨hn, hdup, fun i _ => ⟨rfl, rfl⟩,
      fun i hge hlt => absurd hlt (by omega)⟩

/-- A concrete two-sector track (IDs 3 and 0, both maps present) used to
instantiate `imdu_add_missing_invariants`. -/
def addMissingSampleTrack : ImdTrack :=
  { cyl := 1
    head := 0
    hflag := 0xC0
    numSectors := 2
    sectorSize := 128
    smap := fun i => if i = 0 then 3 else if i = 1 then 0 else 0
    sflag := fun _ => 1
    cmap := fun _ => 1
    hmap := fun _ => 0 }

/-- Witness for `imdu_add_missing_invariants`: padding the sample track to
4 sectors stays within the per-track ceiling. -/
theorem imdu_add_missing_invariants_witness :
    (imduAddMissing 4 addMissingSampleTrack).numSectors ≤
      LIBIMD_MAX_SECTORS_PER_TRACK :=
  (imdu_add_missing_invariants 4 addMissingSampleTrack (by decide)
    (by decide) (by decide)).1

end Imd
